import Mathlib

/-!
Verification of the virtual-filesystem / shell core of the Yes-Browser
repository (class `VirtualFileSystem` and the terminal command handler).

The JavaScript source is shallowly embedded: the flat path-to-entry map
`this.fs` becomes an insertion-ordered association list, every store
operation becomes a pure state-passing function, and the one place where
the source can throw a `TypeError` (the parent lookup performed by `rm`
after the target entry has been deleted) is modelled by an explicit
`crash` result.  Recursion in `rm` is bounded by explicit fuel; `fuelOut`
is kept distinct from `crash` so that a proved crash is a genuine
exception of the source and never fuel exhaustion.
-/

namespace YesVFS

/-- Whitespace trim of a character list (model of JavaScript
`String.prototype.trim` for the characters that occur in shell lines). -/
def chTrim (cs : List Char) : List Char :=
  ((cs.dropWhile Char.isWhitespace).reverse.dropWhile Char.isWhitespace).reverse

/-- Split a character list at every occurrence of `sep`, keeping empty
pieces, exactly like JavaScript `split` with a one-character separator. -/
def chSplit (sep : Char) : List Char → List (List Char)
  | [] => [[]]
  | c :: rest =>
    match chSplit sep rest with
    | [] => [[c]]
    | g :: gs => if c = sep then [] :: g :: gs else (c :: g) :: gs

/-- Split a character list at every character satisfying `sep`, keeping
empty pieces. -/
def chSplitP (sep : Char → Bool) : List Char → List (List Char)
  | [] => [[]]
  | c :: rest =>
    match chSplitP sep rest with
    | [] => [[c]]
    | g :: gs => if sep c then [] :: g :: gs else (c :: g) :: gs

/-- Join pieces with a single `sep` character between consecutive pieces
(model of `Array.prototype.join`). -/
def joinWith (sep : Char) : List (List Char) → List Char
  | [] => []
  | [p] => p
  | p :: rest => p ++ sep :: joinWith sep rest

/-- Join path segments with `/` (model of `join('/')`). -/
def joinSlash : List (List Char) → List Char := joinWith '/'

/-- The part of `p` strictly before its last slash, and the part strictly
after it; when `p` has no slash the first component is empty and the
second is all of `p`, mirroring `substring(0, lastIndexOf('/'))` and
`substring(lastIndexOf('/') + 1)` in the source. -/
def splitAtLastSlash (p : String) : String × String :=
  let revd := p.data.reverse
  let revName := revd.takeWhile (fun c => c ≠ '/')
  match revd.dropWhile (fun c => c ≠ '/') with
  | [] => (⟨[]⟩, ⟨revName.reverse⟩)
  | _ :: revBefore => (⟨revBefore.reverse⟩, ⟨revName.reverse⟩)

/-- `path.substring(0, path.lastIndexOf('/')) || '/'` from the source:
the parent key of a path. -/
def parentOf (p : String) : String :=
  let before := (splitAtLastSlash p).1
  if before = "" then "/" else before

/-- `path.substring(path.lastIndexOf('/') + 1)` from the source: the
final name component of a path. -/
def baseOf (p : String) : String := (splitAtLastSlash p).2

/-- One stored entry: `{type:'dir', children}` or
`{type:'file', content, created}`. -/
inductive Entry where
  | dir (children : List String)
  | file (content : String) (created : Nat)
  deriving DecidableEq

/-- The flat map `this.fs`: canonical path → entry, as an
insertion-ordered association list (JavaScript objects preserve property
insertion order, which matters for persistence round-trips). -/
abbrev Tree := List (String × Entry)

/-- First-match lookup in the association list. -/
def tlookup : Tree → String → Option Entry
  | [], _ => none
  | (k, e) :: rest, q => if q = k then some e else tlookup rest q

/-- `this.fs[path] = entry`: replace in place when the key is present,
otherwise append at the end (JavaScript property-assignment order). -/
def tset (t : Tree) (k : String) (e : Entry) : Tree :=
  if (tlookup t k).isSome then
    t.map (fun kv => if kv.1 = k then (k, e) else kv)
  else
    t ++ [(k, e)]

/-- `delete this.fs[path]`. -/
def tdel (t : Tree) (k : String) : Tree :=
  t.filter (fun kv => kv.1 ≠ k)

/-- The mutable session: `currentDir` and the tree `fs`. -/
structure VFS where
  currentDir : String
  fs : Tree
  deriving DecidableEq

/-- `resolvePath` from the source, applied rule for rule: absolute paths
are returned unchanged; `~` and `~/` expand to the fixed home; `.` is the
current directory; `..` drops the last nonempty segment of the current
directory; anything else is appended to the current directory with
exactly one slash inserted if missing. -/
def resolvePath (cwd p : String) : String :=
  if p.data.head? = some '/' then p
  else if p = "~" then "/home/user"
  else if p.data.take 2 = ['~', '/'] then "/home/user" ++ (⟨p.data.drop 1⟩ : String)
  else if p = "." then cwd
  else if p = ".." then
    ⟨'/' :: joinSlash (((chSplit '/' cwd.data).filter (fun g => g ≠ [])).dropLast)⟩
  else if cwd.data.getLast? = some '/' then cwd ++ p
  else cwd ++ "/" ++ p

/-- `path.startsWith('/')`: the path expression begins with a slash. -/
def isAbsolute (p : String) : Bool := decide (p.data.head? = some '/')

/-- `exists(path)`: pure lookup, no resolution (callers pass resolved
keys). -/
def exists_ (fs : Tree) (p : String) : Bool := (tlookup fs p).isSome

/-- `isDir(path)`. -/
def isDir (fs : Tree) (p : String) : Bool :=
  match tlookup fs p with
  | some (Entry.dir _) => true
  | _ => false

/-- `isFile(path)`. -/
def isFile (fs : Tree) (p : String) : Bool :=
  match tlookup fs p with
  | some (Entry.file _ _) => true
  | _ => false

/-- The children array of a directory key (empty for missing keys or
files; used only where the source has already checked `isDir`). -/
def childrenOf (fs : Tree) (p : String) : List String :=
  match tlookup fs p with
  | some (Entry.dir ch) => ch
  | _ => []

/-- `this.fs[parent].children.push(name)`.  In the source this line runs
only after an `isDir(parent)` guard, so the fallback branch (parent
missing or a file) is unreachable there; it is a no-op here. -/
def pushChild (fs : Tree) (parent name : String) : Tree :=
  match tlookup fs parent with
  | some (Entry.dir ch) => tset fs parent (Entry.dir (ch ++ [name]))
  | _ => fs

/-- Result payloads of the store operations. -/
inductive Res where
  | success
  | successPath (p : String)
  | content (s : String)
  | items (ls : List String)
  | error (msg : String)
  deriving DecidableEq

/-- `true` exactly on `Res.error`. -/
def Res.isErr : Res → Bool
  | .error _ => true
  | _ => false

/-- Outcome of a store call: a thrown JavaScript exception (`crash`),
fuel exhaustion of the bounded model of `rm`'s recursion (`fuelOut`,
never produced by any non-recursive operation), or a returned result
together with the state after the call. -/
inductive StepRes where
  | crash
  | fuelOut
  | ok (r : Res) (st : VFS)
  deriving DecidableEq

/-- `mkdir` from the source. -/
def mkdir (p : String) (st : VFS) : StepRes :=
  let path := resolvePath st.currentDir p
  if exists_ st.fs path then
    .ok (.error "mkdir: cannot create directory: File exists") st
  else
    let parent := parentOf path
    if !isDir st.fs parent then
      .ok (.error "mkdir: cannot create directory: No such file or directory") st
    else
      let name := baseOf path
      let fs1 := tset st.fs path (Entry.dir [])
      .ok .success { st with fs := pushChild fs1 parent name }

/-- `touch` from the source; `now` stands for `Date.now()`. -/
def touch (now : Nat) (p : String) (st : VFS) : StepRes :=
  let path := resolvePath st.currentDir p
  if exists_ st.fs path then
    .ok .success st
  else
    let parent := parentOf path
    if !isDir st.fs parent then
      .ok (.error "touch: cannot touch: No such file or directory") st
    else
      let name := baseOf path
      let fs1 := tset st.fs path (Entry.file "" now)
      .ok .success { st with fs := pushChild fs1 parent name }

/-- `writeFile` from the source: an implicit `touch` when the target is
missing (note that `touch` resolves the already-resolved path a second
time, as the source does), then an `isFile` check, then set or append. -/
def writeFile (now : Nat) (p content : String) (append : Bool) (st : VFS) : StepRes :=
  let path := resolvePath st.currentDir p
  let afterTouch : StepRes :=
    if !exists_ st.fs path then touch now path st else .ok .success st
  match afterTouch with
  | .ok r st1 =>
    if r.isErr then .ok r st1
    else if !isFile st1.fs path then .ok (.error "cannot write: Is a directory") st1
    else
      match tlookup st1.fs path with
      | some (Entry.file old created) =>
        let e := Entry.file (if append then old ++ content else content) created
        .ok .success { st1 with fs := tset st1.fs path e }
      | _ => .ok (.error "cannot write: Is a directory") st1
  | .crash => .crash
  | .fuelOut => .fuelOut

/-- `readFile` from the source (pure: no state change). -/
def readFile (p : String) (st : VFS) : Res :=
  let path := resolvePath st.currentDir p
  if !exists_ st.fs path then .error "cat: No such file or directory"
  else if !isFile st.fs path then .error "cat: Is a directory"
  else
    match tlookup st.fs path with
    | some (Entry.file c _) => .content c
    | _ => .error "cat: Is a directory"

/-- `ls` from the source. -/
def ls (p : String) (showHidden : Bool) (st : VFS) : Res :=
  let path := resolvePath st.currentDir p
  if !exists_ st.fs path then .error "ls: cannot access: No such file or directory"
  else if !isDir st.fs path then .items [baseOf path]
  else
    let items := childrenOf st.fs path
    .items (if showHidden then items else items.filter (fun i => !i.startsWith "."))

/-- The `for (const child of children)` loop inside `rm`: run `step` on
each child in order, threading the state, ignoring returned results but
propagating a thrown exception (or fuel exhaustion), exactly as a `for`
loop over method calls does. -/
def runList (step : String → VFS → StepRes) : List String → VFS → StepRes
  | [], st => .ok .success st
  | c :: rest, st =>
    match step c st with
    | .ok _ st' => runList step rest st'
    | .crash => .crash
    | .fuelOut => .fuelOut

/-- `rm` from the source, with explicit fuel for its recursion.  After
deleting the target the source evaluates `this.fs[parent].children`; when
the parent key is absent (or a file) that line throws a `TypeError`,
modelled as `crash`. -/
def rmFuel : Nat → String → Bool → VFS → StepRes
  | 0, _, _, _ => .fuelOut
  | Nat.succ fuel, p, recursive, st =>
    let path := resolvePath st.currentDir p
    if !exists_ st.fs path then
      .ok (.error "rm: cannot remove: No such file or directory") st
    else if isDir st.fs path && !recursive then
      .ok (.error "rm: cannot remove: Is a directory (use -r)") st
    else
      let parent := parentOf path
      let name := baseOf path
      let afterChildren : StepRes :=
        if isDir st.fs path && recursive then
          runList (fun c s => rmFuel fuel (path ++ "/" ++ c) true s)
            (childrenOf st.fs path) st
        else .ok .success st
      match afterChildren with
      | .ok _ st1 =>
        let fs2 := tdel st1.fs path
        match tlookup fs2 parent with
        | some (Entry.dir ch) =>
          .ok .success { st1 with fs := tset fs2 parent (Entry.dir (ch.erase name)) }
        | _ => .crash
      | .crash => .crash
      | .fuelOut => .fuelOut

/-- `cd` from the source (total: it cannot throw). -/
def cd (p : String) (st : VFS) : Res × VFS :=
  let path := resolvePath st.currentDir p
  if !exists_ st.fs path then (.error "cd: no such file or directory", st)
  else if !isDir st.fs path then (.error "cd: not a directory", st)
  else (.successPath path, { st with currentDir := path })

/-- `cp` from the source: read the source file, then
`writeFile(dest, content)` with `append` defaulted to `false`. -/
def cp (now : Nat) (src dest : String) (st : VFS) : StepRes :=
  let s := resolvePath st.currentDir src
  let d := resolvePath st.currentDir dest
  if !exists_ st.fs s then .ok (.error "cp: cannot stat: No such file or directory") st
  else if isDir st.fs s then .ok (.error "cp: omitting directory (use -r for recursive)") st
  else
    match readFile s st with
    | .content c => writeFile now d c false st
    | r => .ok r st

/-- `mv` from the source: `cp`, then — only when `cp` did not return an
error — `rm(src)` with `recursive` defaulted to `false`. -/
def mv (now fuel : Nat) (src dest : String) (st : VFS) : StepRes :=
  match cp now src dest st with
  | .ok r st' => if r.isErr then .ok r st' else rmFuel fuel src false st'
  | .crash => .crash
  | .fuelOut => .fuelOut

/-- The default layout hard-coded in the constructor. -/
def defaultFS : Tree :=
  [ ("/", Entry.dir ["home", "etc", "var", "tmp"]),
    ("/home", Entry.dir ["user"]),
    ("/home/user", Entry.dir ["Desktop", "Documents", "Downloads"]),
    ("/home/user/Desktop", Entry.dir []),
    ("/home/user/Documents", Entry.dir []),
    ("/home/user/Downloads", Entry.dir []),
    ("/etc", Entry.dir []),
    ("/var", Entry.dir []),
    ("/tmp", Entry.dir []) ]

/-- The freshly constructed session: `currentDir = '/home/user'` and the
default layout. -/
def defaultVFS : VFS := ⟨"/home/user", defaultFS⟩

/-- The constructor's `this.fs = this.loadFS() || { ... }`.  Modelled
from the spec: `loadFS` reads `localStorage` and `JSON.parse`s it, both
platform primitives outside this repository's source; a missing key or a
malformed payload makes it return `null`, modelled as `none`. -/
def initFS (loaded : Option Tree) : Tree :=
  match loaded with
  | some t => t
  | none => defaultFS

/-! ### The terminal's `echo` branch -/

/-- A double or single quote character (39 is the single quote). -/
def isQuoteCh (c : Char) : Bool := c = '"' || c = Char.ofNat 39

/-- `replace(/^["']|["']$/g, '')` from the echo handler: strip one
leading and one trailing quote character. -/
def stripQuote (s : String) : String :=
  let cs := s.data
  let cs1 := match cs with
    | c :: rest => if isQuoteCh c then rest else cs
    | [] => []
  let cs2 := match cs1.getLast? with
    | some c => if isQuoteCh c then cs1.dropLast else cs1
    | none => cs1
  ⟨cs2⟩

/-- `fullCmd.includes('>>')`: two adjacent greater-than signs occur. -/
def hasDoubleGt : List Char → Bool
  | '>' :: '>' :: _ => true
  | _ :: rest => hasDoubleGt rest
  | [] => false

/-- `filepart.replace('>', '')`: JavaScript `replace` with a string
pattern removes only the first occurrence. -/
def removeFirstGt : List Char → List Char
  | [] => []
  | c :: rest => if c = '>' then rest else c :: removeFirstGt rest

/-- The `echo` branch of `runTermCmd` (lines 1145-1158 of the source):
when the trimmed raw line contains `>`, split it on every `>` (JavaScript
`split`), trim the pieces, take the first two as text part and file part,
drop the 5-character `echo ` prefix and the surrounding quotes from the
text, detect append mode via `includes('>>')`, remove one `>` from the
file part, and call `writeFile` with the text plus a newline; without `>`
the handler just echoes the arguments.  Returns the rendered output line
and the state after the call. -/
def runEcho (now : Nat) (cmd : String) (st : VFS) : StepRes :=
  let fullCmd : List Char := chTrim cmd.data
  if fullCmd.contains '>' then
    let parts := (chSplit '>' fullCmd).map chTrim
    let echopart : List Char := parts.headD []
    let filepart : List Char := (parts.drop 1).headD []
    let text := stripQuote ⟨echopart.drop 5⟩
    let append := hasDoubleGt fullCmd
    let filename : String := ⟨chTrim (removeFirstGt filepart)⟩
    writeFile now filename (text ++ "\n") append st
  else
    let args := ((chSplitP Char.isWhitespace fullCmd).filter (fun g => g ≠ [])).drop 1
    .ok (.content ⟨joinWith ' ' args⟩) st

/-- What the `cat` command renders: `result.error || result.content || ''`. -/
def catRender (p : String) (st : VFS) : String :=
  match readFile p st with
  | .error m => m
  | .content c => c
  | _ => ""

/-- The state carried by an `ok` step, `none` on a crash or on fuel
exhaustion. -/
def stepState : StepRes → Option VFS
  | .ok _ st => some st
  | _ => none

/-! ### Persistence snapshot codec

Modelled from the spec: `saveFS`/`loadFS` delegate the actual
serialization to `JSON.stringify`/`JSON.parse` and `localStorage`,
platform primitives that are not part of this repository's source.  The
spec requires only that one full snapshot of the Tree is written under a
fixed key and that serializing and reloading yields an identical mapping
(same keys in the same order, same `children` order, same contents).
The codec below is an executable stand-in with exactly that contract:
every field is length-prefixed (in unary) so that decoding is exact. -/

/-- Unary length prefix terminated by `#`. -/
def encNat (n : Nat) : List Char := List.replicate n '1' ++ ['#']

/-- Read back a unary length prefix. -/
def decNat : List Char → Option (Nat × List Char)
  | [] => none
  | c :: rest =>
    if c = '#' then some (0, rest)
    else if c = '1' then (decNat rest).map (fun nr => (nr.1 + 1, nr.2))
    else none

/-- Take exactly `n` characters, failing when fewer remain. -/
def takeN : Nat → List Char → Option (List Char × List Char)
  | 0, cs => some ([], cs)
  | _ + 1, [] => none
  | n + 1, c :: cs => (takeN n cs).map (fun pr => (c :: pr.1, pr.2))

/-- A string: its length, then its raw characters. -/
def encStr (s : String) : List Char := encNat s.data.length ++ s.data

/-- Decode a string field. -/
def decStr (cs : List Char) : Option (String × List Char) :=
  match decNat cs with
  | none => none
  | some (n, cs1) => (takeN n cs1).map (fun pr => (⟨pr.1⟩, pr.2))

/-- Decode exactly `n` consecutive values with `dec`. -/
def decTimes {α : Type} (dec : List Char → Option (α × List Char)) :
    Nat → List Char → Option (List α × List Char)
  | 0, cs => some ([], cs)
  | n + 1, cs =>
    match dec cs with
    | none => none
    | some (a, cs1) =>
      match decTimes dec n cs1 with
      | none => none
      | some (l, cs2) => some (a :: l, cs2)

/-- A list: its length, then each element in order. -/
def encListWith {α : Type} (enc : α → List Char) (l : List α) : List Char :=
  encNat l.length ++ (l.map enc).flatten

/-- Decode a length-prefixed list. -/
def decListWith {α : Type} (dec : List Char → Option (α × List Char))
    (cs : List Char) : Option (List α × List Char) :=
  match decNat cs with
  | none => none
  | some (n, cs1) => decTimes dec n cs1

/-- An entry: tag `D` with the ordered children names, or tag `F` with
the content and the creation timestamp. -/
def encEntry : Entry → List Char
  | .dir ch => 'D' :: encListWith encStr ch
  | .file c created => 'F' :: (encStr c ++ encNat created)

/-- Decode one entry. -/
def decEntry : List Char → Option (Entry × List Char)
  | [] => none
  | c :: rest =>
    if c = 'D' then
      (decListWith decStr rest).map (fun pr => (Entry.dir pr.1, pr.2))
    else if c = 'F' then
      match decStr rest with
      | none => none
      | some (s, cs1) => (decNat cs1).map (fun pr => (Entry.file s pr.1, pr.2))
    else none

/-- One mapping pair: the canonical path, then its entry. -/
def encPair (kv : String × Entry) : List Char := encStr kv.1 ++ encEntry kv.2

/-- Decode one mapping pair. -/
def decPair (cs : List Char) : Option ((String × Entry) × List Char) :=
  match decStr cs with
  | none => none
  | some (k, cs1) => (decEntry cs1).map (fun pr => ((k, pr.1), pr.2))

/-- Serialize the whole Tree snapshot, keys in their stored order. -/
def encodeSnapshot (t : Tree) : String := ⟨encListWith encPair t⟩

/-- Reload a serialized snapshot; `none` on malformed or trailing data. -/
def decodeSnapshot (s : String) : Option Tree :=
  match decListWith decPair s.data with
  | some (t, []) => some t
  | _ => none

/-! ### A uniform view of the mutating store operations -/

/-- One mutating Filesystem Store call, with its arguments. -/
inductive MutOp where
  | mkdirOp (p : String)
  | touchOp (now : Nat) (p : String)
  | writeOp (now : Nat) (p c : String) (append : Bool)
  | rmOp (p : String) (recursive : Bool)
  | cpOp (now : Nat) (a b : String)
  | mvOp (now : Nat) (a b : String)

/-- Dispatch a mutating call to its model. -/
def applyMut (fuel : Nat) : MutOp → VFS → StepRes
  | .mkdirOp p, st => mkdir p st
  | .touchOp now p, st => touch now p st
  | .writeOp now p c ap, st => writeFile now p c ap st
  | .rmOp p r, st => rmFuel fuel p r st
  | .cpOp now a b, st => cp now a b st
  | .mvOp now a b, st => mv now fuel a b st

/-- Invariant 1 of the spec's data model: `/` exists and is a Directory. -/
def RootDirOk (fs : Tree) : Prop := ∃ ch, tlookup fs "/" = some (Entry.dir ch)

/-- Invariant 4 of the spec's data model: no path is simultaneously of
kind Directory and File. -/
def KindUnique (fs : Tree) : Prop := ∀ p, ¬(isDir fs p = true ∧ isFile fs p = true)

/-- Invariant 3 of the spec's data model (the `children` part): no name
appears twice in the children of one directory. -/
def ChildrenNodup (fs : Tree) : Prop :=
  ∀ p ch, tlookup fs p = some (Entry.dir ch) → ch.Nodup

/-- The explicit composition the spec describes for `move`: `copy(src,
dest)` and then, only when `copy` did not return an error, `remove(src,
recursive=false)`. -/
def cpThenRm (now fuel : Nat) (src dest : String) (st : VFS) : StepRes :=
  match cp now src dest st with
  | .ok r st' => if r.isErr then .ok r st' else rmFuel fuel src false st'
  | .crash => .crash
  | .fuelOut => .fuelOut

/-! ### Association-list lemmas -/

theorem tlookup_mapRepl_self (t : Tree) (k : String) (e : Entry)
    (h : (tlookup t k).isSome) :
    tlookup (t.map (fun kv => if kv.1 = k then (k, e) else kv)) k = some e := by
  induction t with
  | nil => simp [tlookup] at h
  | cons kv rest ih =>
    obtain ⟨k1, e1⟩ := kv
    by_cases hk : k1 = k
    · subst hk
      show tlookup ((if k1 = k1 then (k1, e) else (k1, e1)) :: _) k1 = some e
      rw [if_pos rfl, tlookup, if_pos rfl]
    · show tlookup ((if k1 = k then (k, e) else (k1, e1)) :: _) k = some e
      rw [if_neg hk, tlookup, if_neg (fun hq => hk hq.symm)]
      rw [tlookup, if_neg (fun hq => hk hq.symm)] at h
      exact ih h

theorem tlookup_mapRepl_ne (t : Tree) (k k' : String) (e : Entry) (h : k' ≠ k) :
    tlookup (t.map (fun kv => if kv.1 = k then (k, e) else kv)) k' = tlookup t k' := by
  induction t with
  | nil => rfl
  | cons kv rest ih =>
    obtain ⟨k1, e1⟩ := kv
    by_cases hk : k1 = k
    · subst hk
      show tlookup ((if k1 = k1 then (k1, e) else (k1, e1)) :: _) k' = _
      rw [if_pos rfl, tlookup, tlookup, if_neg h]
      rw [if_neg h]
      exact ih
    · show tlookup ((if k1 = k then (k, e) else (k1, e1)) :: _) k' = _
      rw [if_neg hk, tlookup, tlookup]
      by_cases hq : k' = k1
      · rw [if_pos hq, if_pos hq]
      · rw [if_neg hq, if_neg hq]
        exact ih

theorem tlookup_append_self (t : Tree) (k : String) (e : Entry)
    (h : tlookup t k = none) :
    tlookup (t ++ [(k, e)]) k = some e := by
  induction t with
  | nil => simp [tlookup]
  | cons kv rest ih =>
    obtain ⟨k1, e1⟩ := kv
    rw [tlookup] at h
    by_cases hk : k = k1
    · rw [if_pos hk] at h; cases h
    · rw [if_neg hk] at h
      rw [List.cons_append, tlookup, if_neg hk]
      exact ih h

theorem tlookup_append_ne (t : Tree) (k k' : String) (e : Entry) (h : k' ≠ k) :
    tlookup (t ++ [(k, e)]) k' = tlookup t k' := by
  induction t with
  | nil => simp [tlookup, if_neg h]
  | cons kv rest ih =>
    obtain ⟨k1, e1⟩ := kv
    rw [List.cons_append, tlookup, tlookup]
    by_cases hq : k' = k1
    · rw [if_pos hq, if_pos hq]
    · rw [if_neg hq, if_neg hq]
      exact ih

theorem tlookup_tset_self (t : Tree) (k : String) (e : Entry) :
    tlookup (tset t k e) k = some e := by
  unfold tset
  by_cases h : (tlookup t k).isSome
  · rw [if_pos h]; exact tlookup_mapRepl_self t k e h
  · rw [if_neg h]
    exact tlookup_append_self t k e (by cases hl : tlookup t k <;> simp [hl] at h ⊢)

theorem tlookup_tset_ne (t : Tree) (k k' : String) (e : Entry) (h : k' ≠ k) :
    tlookup (tset t k e) k' = tlookup t k' := by
  unfold tset
  split
  · exact tlookup_mapRepl_ne t k k' e h
  · exact tlookup_append_ne t k k' e h

theorem tlookup_tdel_self (t : Tree) (k : String) :
    tlookup (tdel t k) k = none := by
  induction t with
  | nil => simp [tdel, tlookup]
  | cons kv rest ih =>
    obtain ⟨k1, e1⟩ := kv
    unfold tdel at ih ⊢
    by_cases hk : k1 = k
    · subst hk
      simpa using ih
    · rw [List.filter_cons_of_pos (by simpa using hk)]
      rw [tlookup, if_neg (fun hq => hk hq.symm)]
      exact ih

theorem tlookup_tdel_ne (t : Tree) (k k' : String) (h : k' ≠ k) :
    tlookup (tdel t k) k' = tlookup t k' := by
  induction t with
  | nil => simp [tdel, tlookup]
  | cons kv rest ih =>
    obtain ⟨k1, e1⟩ := kv
    unfold tdel at ih ⊢
    by_cases hk : k1 = k
    · subst hk
      rw [List.filter_cons_of_neg (by simp)]
      rw [tlookup, if_neg h]
      exact ih
    · rw [List.filter_cons_of_pos (by simpa using hk)]
      rw [tlookup, tlookup]
      by_cases hq : k' = k1
      · rw [if_pos hq, if_pos hq]
      · rw [if_neg hq, if_neg hq]
        exact ih

/-! ### Invariants 1 and 4 of the spec's data model -/

theorem kindUnique_always (fs : Tree) : KindUnique fs := by
  intro p hp
  obtain ⟨h1, h2⟩ := hp
  unfold isDir at h1
  unfold isFile at h2
  cases hl : tlookup fs p with
  | none => rw [hl] at h1; exact Bool.noConfusion h1
  | some e =>
    cases e with
    | dir ch => rw [hl] at h2; exact Bool.noConfusion h2
    | file c cr => rw [hl] at h1; exact Bool.noConfusion h1

theorem exists_of_lookup {fs : Tree} {p : String} {e : Entry}
    (h : tlookup fs p = some e) : exists_ fs p = true := by
  unfold exists_; rw [h]; rfl

theorem isDir_lookup {fs : Tree} {p : String} (h : isDir fs p = true) :
    ∃ ch, tlookup fs p = some (Entry.dir ch) := by
  unfold isDir at h
  cases hl : tlookup fs p with
  | none => rw [hl] at h; exact Bool.noConfusion h
  | some e =>
    cases e with
    | dir ch => exact ⟨ch, rfl⟩
    | file c cr => rw [hl] at h; exact Bool.noConfusion h

theorem isFile_lookup {fs : Tree} {p : String} (h : isFile fs p = true) :
    ∃ c cr, tlookup fs p = some (Entry.file c cr) := by
  unfold isFile at h
  cases hl : tlookup fs p with
  | none => rw [hl] at h; exact Bool.noConfusion h
  | some e =>
    cases e with
    | dir ch => rw [hl] at h; exact Bool.noConfusion h
    | file c cr => exact ⟨c, cr, rfl⟩

theorem parentOf_root : parentOf "/" = "/" := by decide

theorem rootDir_tset {fs : Tree} {k : String} {e : Entry}
    (h : RootDirOk fs) (hk : k ≠ "/") : RootDirOk (tset fs k e) := by
  obtain ⟨ch, h0⟩ := h
  exact ⟨ch, by rw [tlookup_tset_ne fs k "/" e (fun hq => hk hq.symm)]; exact h0⟩

theorem rootDir_pushChild {fs : Tree} {parent name : String}
    (h : RootDirOk fs) : RootDirOk (pushChild fs parent name) := by
  unfold pushChild
  cases hl : tlookup fs parent with
  | none => exact h
  | some e =>
    cases e with
    | file c cr => exact h
    | dir ch =>
      by_cases hp : parent = "/"
      · subst hp
        exact ⟨ch ++ [name], tlookup_tset_self ..⟩
      · exact rootDir_tset h hp

theorem root_ne_of_not_exists {fs : Tree} {p : String}
    (h : RootDirOk fs) (hp : ¬(exists_ fs p = true)) : p ≠ "/" := by
  intro hz
  subst hz
  obtain ⟨ch, h0⟩ := h
  exact hp (exists_of_lookup h0)

theorem root_ne_of_file {fs : Tree} {p : String} {c : String} {cr : Nat}
    (h : RootDirOk fs) (hl : tlookup fs p = some (Entry.file c cr)) : p ≠ "/" := by
  intro hz
  subst hz
  obtain ⟨ch, h0⟩ := h
  rw [h0] at hl
  cases hl

theorem mkdir_rootDir {p : String} {st : VFS} {r : Res} {st' : VFS}
    (h : RootDirOk st.fs) (heq : mkdir p st = .ok r st') : RootDirOk st'.fs := by
  simp only [mkdir] at heq
  split at heq
  next => cases heq; exact h
  next hex =>
    split at heq
    next => cases heq; exact h
    next =>
      cases heq
      exact rootDir_pushChild (rootDir_tset h (root_ne_of_not_exists h hex))

theorem touch_rootDir {now : Nat} {p : String} {st : VFS} {r : Res} {st' : VFS}
    (h : RootDirOk st.fs) (heq : touch now p st = .ok r st') : RootDirOk st'.fs := by
  simp only [touch] at heq
  split at heq
  next => cases heq; exact h
  next hex =>
    split at heq
    next => cases heq; exact h
    next =>
      cases heq
      exact rootDir_pushChild (rootDir_tset h (root_ne_of_not_exists h hex))

theorem writeFile_rootDir {now : Nat} {p c : String} {ap : Bool} {st : VFS}
    {r : Res} {st' : VFS}
    (h : RootDirOk st.fs) (heq : writeFile now p c ap st = .ok r st') :
    RootDirOk st'.fs := by
  simp only [writeFile] at heq
  split at heq
  next r1 st1 hat =>
    have h1 : RootDirOk st1.fs := by
      split at hat
      next => exact touch_rootDir h hat
      next => cases hat; exact h
    split at heq
    next => cases heq; exact h1
    next =>
      split at heq
      next => cases heq; exact h1
      next =>
        split at heq
        next old created hl =>
          cases heq
          exact rootDir_tset h1 (root_ne_of_file h1 hl)
        next => cases heq; exact h1
  next hat => cases heq
  next hat => cases heq

theorem runList_pres (P : VFS → Prop) (step : String → VFS → StepRes)
    (hstep : ∀ c s r s', step c s = .ok r s' → P s → P s') :
    ∀ cs s r s', P s → runList step cs s = .ok r s' → P s' := by
  intro cs
  induction cs with
  | nil =>
    intro s r s' hP heq
    simp only [runList] at heq
    cases heq
    exact hP
  | cons c rest ih =>
    intro s r s' hP heq
    simp only [runList] at heq
    split at heq
    next r1 s1 hs => exact ih s1 r s' (hstep c s r1 s1 hs hP) heq
    next => cases heq
    next => cases heq

theorem rm_rootDir :
    ∀ fuel p rec (st : VFS) r st', RootDirOk st.fs →
      rmFuel fuel p rec st = .ok r st' → RootDirOk st'.fs := by
  intro fuel
  induction fuel with
  | zero =>
    intro p rec st r st' h heq
    exact absurd heq (by simp [rmFuel])
  | succ n ih =>
    intro p rec st r st' h heq
    simp only [rmFuel] at heq
    split at heq
    next => cases heq; exact h
    next =>
      split at heq
      next => cases heq; exact h
      next =>
        split at heq
        next r1 st1 hac =>
          have h1 : RootDirOk st1.fs := by
            split at hac
            next =>
              exact runList_pres (fun s => RootDirOk s.fs) _
                (fun c s rr s' hcs hP => ih _ true s rr s' hP hcs) _ st r1 st1 h hac
            next => cases hac; exact h
          split at heq
          next ch hl =>
            cases heq
            by_cases hpz : resolvePath st.currentDir p = "/"
            · rw [hpz, parentOf_root] at hl
              rw [tlookup_tdel_self] at hl
              cases hl
            · by_cases hpar : parentOf (resolvePath st.currentDir p) = "/"
              · rw [hpar]
                exact ⟨_, tlookup_tset_self ..⟩
              · obtain ⟨ch0, h0⟩ := h1
                refine ⟨ch0, ?_⟩
                rw [tlookup_tset_ne _ _ "/" _ (fun hq => hpar hq.symm)]
                rw [tlookup_tdel_ne _ _ "/" (fun hq => hpz hq.symm)]
                exact h0
          next => cases heq
        next => cases heq
        next => cases heq

theorem cp_rootDir {now : Nat} {a b : String} {st : VFS} {r : Res} {st' : VFS}
    (h : RootDirOk st.fs) (heq : cp now a b st = .ok r st') : RootDirOk st'.fs := by
  simp only [cp] at heq
  split at heq
  next => cases heq; exact h
  next =>
    split at heq
    next => cases heq; exact h
    next =>
      split at heq
      next => exact writeFile_rootDir h heq
      next => cases heq; exact h

theorem mv_rootDir {now fuel : Nat} {a b : String} {st : VFS} {r : Res} {st' : VFS}
    (h : RootDirOk st.fs) (heq : mv now fuel a b st = .ok r st') : RootDirOk st'.fs := by
  simp only [mv] at heq
  split at heq
  next r1 st1 hcp =>
    have h1 : RootDirOk st1.fs := cp_rootDir h hcp
    split at heq
    next => cases heq; exact h1
    next => exact rm_rootDir fuel a false st1 r st' h1 heq
  next => cases heq
  next => cases heq

/-! ### Totality of the non-recursive operations -/

theorem mkdir_ok (p : String) (st : VFS) : ∃ r st', mkdir p st = .ok r st' := by
  simp only [mkdir]
  split
  · exact ⟨_, _, rfl⟩
  · split
    · exact ⟨_, _, rfl⟩
    · exact ⟨_, _, rfl⟩

theorem touch_ok (now : Nat) (p : String) (st : VFS) :
    ∃ r st', touch now p st = .ok r st' := by
  simp only [touch]
  split
  · exact ⟨_, _, rfl⟩
  · split
    · exact ⟨_, _, rfl⟩
    · exact ⟨_, _, rfl⟩

theorem writeFile_ok (now : Nat) (p c : String) (ap : Bool) (st : VFS) :
    ∃ r st', writeFile now p c ap st = .ok r st' := by
  simp only [writeFile]
  split
  next r1 st1 hat =>
    split
    · exact ⟨_, _, rfl⟩
    · split
      · exact ⟨_, _, rfl⟩
      · split
        · exact ⟨_, _, rfl⟩
        · exact ⟨_, _, rfl⟩
  next hat =>
    exfalso
    obtain ⟨r1, st1, ht⟩ := touch_ok now (resolvePath st.currentDir p) st
    split at hat
    · rw [ht] at hat; cases hat
    · cases hat
  next hat =>
    exfalso
    obtain ⟨r1, st1, ht⟩ := touch_ok now (resolvePath st.currentDir p) st
    split at hat
    · rw [ht] at hat; cases hat
    · cases hat

theorem cp_ok (now : Nat) (a b : String) (st : VFS) :
    ∃ r st', cp now a b st = .ok r st' := by
  simp only [cp]
  split
  · exact ⟨_, _, rfl⟩
  · split
    · exact ⟨_, _, rfl⟩
    · split
      · exact writeFile_ok ..
      · exact ⟨_, _, rfl⟩

/-! ### Fine-grained behavior of `touch`, `writeFile`, `cp`, `rm` -/

theorem touch_currentDir {now : Nat} {p : String} {st : VFS} {r : Res} {st' : VFS}
    (heq : touch now p st = .ok r st') : st'.currentDir = st.currentDir := by
  simp only [touch] at heq
  split at heq
  · cases heq; rfl
  · split at heq
    · cases heq; rfl
    · cases heq; rfl

theorem touch_exists_noop {now : Nat} {p : String} {st : VFS}
    (h : exists_ st.fs (resolvePath st.currentDir p) = true) :
    touch now p st = .ok .success st := by
  simp only [touch]
  rw [if_pos h]

theorem touch_err_state {now : Nat} {p : String} {st : VFS} {r : Res} {st' : VFS}
    (heq : touch now p st = .ok r st') (he : r.isErr = true) : st' = st := by
  simp only [touch] at heq
  split at heq
  · cases heq; exact Bool.noConfusion he
  · split at heq
    · cases heq; rfl
    · cases heq; exact Bool.noConfusion he

theorem touch_lookup_pres {now : Nat} {p : String} {st : VFS} {r : Res} {st' : VFS}
    (heq : touch now p st = .ok r st') (k : String)
    (hk : exists_ st.fs k = true) (hkd : isDir st.fs k = false) :
    tlookup st'.fs k = tlookup st.fs k := by
  simp only [touch] at heq
  split at heq
  next => cases heq; rfl
  next hex =>
    split at heq
    next => cases heq; rfl
    next hdir =>
      cases heq
      have hdirT : isDir st.fs (parentOf (resolvePath st.currentDir p)) = true := by
        revert hdir
        cases isDir st.fs (parentOf (resolvePath st.currentDir p)) <;> simp
      have hkpath : k ≠ resolvePath st.currentDir p := by
        intro hq; rw [hq] at hk; exact hex hk
      have h1 : tlookup (tset st.fs (resolvePath st.currentDir p) (Entry.file "" now)) k
          = tlookup st.fs k := tlookup_tset_ne _ _ _ _ hkpath
      show tlookup (pushChild _ _ _) k = _
      unfold pushChild
      split
      next ch hpp =>
        have hkparent : k ≠ parentOf (resolvePath st.currentDir p) := by
          intro hq; rw [hq, hdirT] at hkd; cases hkd
        rw [tlookup_tset_ne _ _ _ _ hkparent]
        exact h1
      next => exact h1

theorem writeFile_err_pres {now : Nat} {w c : String} {ap : Bool} {st : VFS}
    {r : Res} {st' : VFS}
    (heq : writeFile now w c ap st = .ok r st') (he : r.isErr = true)
    (k : String) (hk : exists_ st.fs k = true) (hkd : isDir st.fs k = false) :
    tlookup st'.fs k = tlookup st.fs k := by
  simp only [writeFile] at heq
  split at heq
  next r1 st1 hat =>
    have hpres : tlookup st1.fs k = tlookup st.fs k := by
      split at hat
      · exact touch_lookup_pres hat k hk hkd
      · cases hat; rfl
    split at heq
    · cases heq; exact hpres
    · split at heq
      · cases heq; exact hpres
      · split at heq
        next old created hl => cases heq; exact Bool.noConfusion he
        next => cases heq; exact hpres
  next => cases heq
  next => cases heq

theorem cp_err_pres {now : Nat} {a b : String} {st : VFS} {r : Res} {st' : VFS}
    (heq : cp now a b st = .ok r st') (he : r.isErr = true) :
    tlookup st'.fs (resolvePath st.currentDir a) =
      tlookup st.fs (resolvePath st.currentDir a) := by
  simp only [cp] at heq
  split at heq
  next => cases heq; rfl
  next hex =>
    split at heq
    next hdir => cases heq; rfl
    next hdir =>
      have hkex : exists_ st.fs (resolvePath st.currentDir a) = true := by
        revert hex
        cases exists_ st.fs (resolvePath st.currentDir a) <;> simp
      have hkdir : isDir st.fs (resolvePath st.currentDir a) = false := by
        revert hdir
        cases isDir st.fs (resolvePath st.currentDir a) <;> simp
      split at heq
      next ccc hrf => exact writeFile_err_pres heq he _ hkex hkdir
      next hrf => cases heq; rfl

theorem resolve_abs {cwd p : String} (h : isAbsolute p = true) :
    resolvePath cwd p = p := by
  have h' : p.data.head? = some '/' := of_decide_eq_true h
  simp only [resolvePath]
  rw [if_pos h']

theorem writeFile_success_lookup {now : Nat} {p c : String} {st st' : VFS}
    (heq : writeFile now p c false st = .ok .success st') :
    st'.currentDir = st.currentDir ∧
      ∃ cr, tlookup st'.fs (resolvePath st.currentDir p) = some (Entry.file c cr) := by
  simp only [writeFile] at heq
  split at heq
  next r1 st1 hat =>
    have hcd : st1.currentDir = st.currentDir := by
      split at hat
      · exact touch_currentDir hat
      · cases hat; rfl
    split at heq
    next he => cases heq; exact Bool.noConfusion he
    next =>
      split at heq
      next => cases heq
      next hisf =>
        split at heq
        next old created hl =>
          cases heq
          exact ⟨hcd, created, tlookup_tset_self ..⟩
        next => cases heq
  next => cases heq
  next => cases heq

theorem readFile_of_lookup {p : String} {st : VFS} {c : String} {cr : Nat}
    (hl : tlookup st.fs (resolvePath st.currentDir p) = some (Entry.file c cr)) :
    readFile p st = .content c := by
  have hex : exists_ st.fs (resolvePath st.currentDir p) = true := exists_of_lookup hl
  have hf : isFile st.fs (resolvePath st.currentDir p) = true := by
    unfold isFile; rw [hl]
  simp [readFile, hex, hf, hl]

/-! ### Round-trip of the snapshot codec -/

theorem decNat_encNat : ∀ (n : Nat) (rest : List Char),
    decNat (encNat n ++ rest) = some (n, rest) := by
  intro n
  induction n with
  | zero =>
    intro rest
    have h : encNat 0 ++ rest = '#' :: rest := by simp [encNat]
    rw [h, decNat, if_pos rfl]
  | succ m ih =>
    intro rest
    have h : encNat (m + 1) ++ rest = '1' :: (encNat m ++ rest) := by
      simp [encNat, List.replicate_succ]
    rw [h, decNat, if_neg (by decide), if_pos rfl, ih]
    rfl

theorem takeN_append : ∀ (cs rest : List Char),
    takeN cs.length (cs ++ rest) = some (cs, rest) := by
  intro cs
  induction cs with
  | nil => intro rest; rfl
  | cons c cs ih =>
    intro rest
    show takeN (cs.length + 1) (c :: (cs ++ rest)) = some (c :: cs, rest)
    simp only [takeN, ih]
    rfl

theorem decStr_encStr (s : String) (rest : List Char) :
    decStr (encStr s ++ rest) = some (s, rest) := by
  have h1 : encStr s ++ rest = encNat s.data.length ++ (s.data ++ rest) := by
    simp [encStr]
  rw [decStr, h1, decNat_encNat]
  show (takeN s.data.length (s.data ++ rest)).map _ = _
  rw [takeN_append]
  rfl

theorem decTimes_flatten {α : Type} (dec : List Char → Option (α × List Char))
    (enc : α → List Char) (helem : ∀ a r, dec (enc a ++ r) = some (a, r)) :
    ∀ (l : List α) (rest : List Char),
      decTimes dec l.length ((l.map enc).flatten ++ rest) = some (l, rest) := by
  intro l
  induction l with
  | nil => intro rest; rfl
  | cons a l ih =>
    intro rest
    show decTimes dec (l.length + 1) ((enc a ++ (l.map enc).flatten) ++ rest)
        = some (a :: l, rest)
    rw [List.append_assoc]
    simp only [decTimes, helem, ih]

theorem decListWith_enc {α : Type} (dec : List Char → Option (α × List Char))
    (enc : α → List Char) (helem : ∀ a r, dec (enc a ++ r) = some (a, r))
    (l : List α) (rest : List Char) :
    decListWith dec (encListWith enc l ++ rest) = some (l, rest) := by
  unfold encListWith decListWith
  rw [List.append_assoc, decNat_encNat]
  exact decTimes_flatten dec enc helem l rest

theorem decEntry_encEntry : ∀ (e : Entry) (rest : List Char),
    decEntry (encEntry e ++ rest) = some (e, rest) := by
  intro e rest
  cases e with
  | dir ch =>
    show decEntry ('D' :: (encListWith encStr ch ++ rest)) = some (.dir ch, rest)
    rw [decEntry, if_pos rfl, decListWith_enc decStr encStr decStr_encStr]
    rfl
  | file c cr =>
    show decEntry ('F' :: ((encStr c ++ encNat cr) ++ rest)) = some (.file c cr, rest)
    rw [decEntry, if_neg (by decide), if_pos rfl, List.append_assoc, decStr_encStr]
    show (decNat (encNat cr ++ rest)).map _ = _
    rw [decNat_encNat]
    rfl

theorem decPair_encPair : ∀ (kv : String × Entry) (rest : List Char),
    decPair (encPair kv ++ rest) = some (kv, rest) := by
  intro kv rest
  obtain ⟨k, e⟩ := kv
  show decPair ((encStr k ++ encEntry e) ++ rest) = some ((k, e), rest)
  rw [decPair, List.append_assoc, decStr_encStr]
  show (decEntry (encEntry e ++ rest)).map _ = _
  rw [decEntry_encEntry]
  rfl

theorem decodeSnapshot_encodeSnapshot (t : Tree) :
    decodeSnapshot (encodeSnapshot t) = some t := by
  have h : decListWith decPair (encListWith encPair t ++ []) = some (t, []) :=
    decListWith_enc decPair encPair decPair_encPair t []
  rw [List.append_nil] at h
  unfold decodeSnapshot encodeSnapshot
  rw [show (String.mk (encListWith encPair t)).data = encListWith encPair t from rfl, h]

theorem resolve_dotdot (cwd : String) :
    resolvePath cwd ".." =
      ⟨'/' :: joinSlash (((chSplit '/' cwd.data).filter (fun g => g ≠ [])).dropLast)⟩ := by
  simp only [resolvePath]
  rw [if_neg (by decide), if_neg (by decide), if_neg (by decide), if_neg (by decide)]
  simp

/-! ### The claims -/

/-- Claim C1, counterexample.  The claim asserts that every Filesystem
Store operation — in particular `remove('/', recursive=true)` — returns a
result rather than throwing.  On the default layout, `rm('/', true)`
deletes the root entry and then evaluates `this.fs[parent].children` with
`parent` being the just-deleted root, which throws a `TypeError`; the
model returns `crash` (explicitly distinct from fuel exhaustion). -/
theorem claim_C1_counterexample : rmFuel 10 "/" true defaultVFS = .crash := by decide

/-- Claim C1, amended.  `exists`, `isDirectory`, `isFile`, `readFile`,
`list`, `changeDirectory` and `printWorkingDirectory` are pure total
functions of the state (they cannot throw, which the model reflects in
their types), and `makeDirectory`, `touch`, `writeFile` and `copy` always
return a result for every path argument and every state; but `remove` —
and `move`, which calls it — can throw: `remove('/', recursive=true)`
throws a `TypeError` while unlinking the deleted root from its
now-deleted parent, and a `move` whose `remove` step hits a missing
parent key propagates the same exception. -/
theorem claim_C1_amended :
    (∀ p st, ∃ r st', mkdir p st = .ok r st') ∧
    (∀ now p st, ∃ r st', touch now p st = .ok r st') ∧
    (∀ now p c ap st, ∃ r st', writeFile now p c ap st = .ok r st') ∧
    (∀ now a b st, ∃ r st', cp now a b st = .ok r st') ∧
    rmFuel 10 "/" true defaultVFS = .crash ∧
    mv 0 10 "/f" "/f" ⟨"/", [("/f", Entry.file "x" 0)]⟩ = .crash :=
  ⟨mkdir_ok, touch_ok, writeFile_ok, cp_ok, by decide, by decide⟩

/-- Claim C2, counterexample.  The claim asserts that invariants 1-4 hold
after every successful mutating operation for every path-expression
argument.  From the default layout, `mkdir('/x')` and then `mkdir('//x')`
both succeed (the parent of `'//x'` computes to `'/'`), after which the
name `x` appears twice in the root's children — invariant 3 is violated
by a reachable, successful operation sequence. -/
theorem claim_C2_counterexample :
    ∃ st1 st2,
      mkdir "/x" defaultVFS = .ok .success st1 ∧
      mkdir "//x" st1 = .ok .success st2 ∧
      tlookup st2.fs "/" = some (Entry.dir ["home", "etc", "var", "tmp", "x", "x"]) ∧
      ¬ ChildrenNodup st2.fs := by
  refine ⟨⟨"/home/user",
      [ ("/", Entry.dir ["home", "etc", "var", "tmp", "x"]),
        ("/home", Entry.dir ["user"]),
        ("/home/user", Entry.dir ["Desktop", "Documents", "Downloads"]),
        ("/home/user/Desktop", Entry.dir []),
        ("/home/user/Documents", Entry.dir []),
        ("/home/user/Downloads", Entry.dir []),
        ("/etc", Entry.dir []),
        ("/var", Entry.dir []),
        ("/tmp", Entry.dir []),
        ("/x", Entry.dir []) ]⟩,
    ⟨"/home/user",
      [ ("/", Entry.dir ["home", "etc", "var", "tmp", "x", "x"]),
        ("/home", Entry.dir ["user"]),
        ("/home/user", Entry.dir ["Desktop", "Documents", "Downloads"]),
        ("/home/user/Desktop", Entry.dir []),
        ("/home/user/Documents", Entry.dir []),
        ("/home/user/Downloads", Entry.dir []),
        ("/etc", Entry.dir []),
        ("/var", Entry.dir []),
        ("/tmp", Entry.dir []),
        ("/x", Entry.dir []),
        ("//x", Entry.dir []) ]⟩, by decide, by decide, by decide, ?_⟩
  intro hnd
  exact (by decide : ¬ (["home", "etc", "var", "tmp", "x", "x"] : List String).Nodup)
    (hnd "/" _ (by decide))

/-- Claim C2, amended.  After every mutating operation that returns a
result (in particular after every successful one), invariant 1 (`/`
exists and is a Directory) and invariant 4 (no path is simultaneously
Directory and File) hold; invariants 2 and 3 are not preserved for every
path-expression argument, because absolute path expressions containing
empty segments (such as `//x`) create distinct keys that share one
parent-and-name slot, letting successful operations duplicate a name in a
parent's children. -/
theorem claim_C2_amended :
    ∀ (fuel : Nat) (op : MutOp) (st : VFS) (r : Res) (st' : VFS),
      RootDirOk st.fs → applyMut fuel op st = .ok r st' →
      RootDirOk st'.fs ∧ KindUnique st'.fs := by
  intro fuel op st r st' h heq
  refine ⟨?_, kindUnique_always st'.fs⟩
  cases op with
  | mkdirOp p => exact mkdir_rootDir h heq
  | touchOp now p => exact touch_rootDir h heq
  | writeOp now p c ap => exact writeFile_rootDir h heq
  | rmOp p rec => exact rm_rootDir fuel p rec st r st' h heq
  | cpOp now a b => exact cp_rootDir h heq
  | mvOp now a b => exact mv_rootDir h heq

/-- Claim C2, witness: the amended preservation theorem applied to
`mkdir('/z')` on the default layout. -/
theorem claim_C2_witness :
    RootDirOk defaultVFS.fs ∧
      (RootDirOk (⟨"/home/user",
          [ ("/", Entry.dir ["home", "etc", "var", "tmp", "z"]),
            ("/home", Entry.dir ["user"]),
            ("/home/user", Entry.dir ["Desktop", "Documents", "Downloads"]),
            ("/home/user/Desktop", Entry.dir []),
            ("/home/user/Documents", Entry.dir []),
            ("/home/user/Downloads", Entry.dir []),
            ("/etc", Entry.dir []),
            ("/var", Entry.dir []),
            ("/tmp", Entry.dir []),
            ("/z", Entry.dir []) ]⟩ : VFS).fs ∧
        KindUnique (⟨"/home/user",
          [ ("/", Entry.dir ["home", "etc", "var", "tmp", "z"]),
            ("/home", Entry.dir ["user"]),
            ("/home/user", Entry.dir ["Desktop", "Documents", "Downloads"]),
            ("/home/user/Desktop", Entry.dir []),
            ("/home/user/Documents", Entry.dir []),
            ("/home/user/Downloads", Entry.dir []),
            ("/etc", Entry.dir []),
            ("/var", Entry.dir []),
            ("/tmp", Entry.dir []),
            ("/z", Entry.dir []) ]⟩ : VFS).fs) :=
  ⟨⟨["home", "etc", "var", "tmp"], rfl⟩,
    claim_C2_amended 0 (.mkdirOp "/z") defaultVFS .success _
      ⟨["home", "etc", "var", "tmp"], rfl⟩ (by decide)⟩

/-- Claim C3 (code bug).  The spec's scenario says `echo "hi" >
/tmp/x.txt` then `cat` renders `hi\n` (which holds), and that `echo "bye"
>> /tmp/x.txt` appends so `cat` renders `hi\nbye\n`.  The code's
`fullCmd.split('>')` splits on EVERY `>`, so for `>>` the file part is
the empty string between the two `>` characters; the dead
`filepart.replace('>', '')` shows the intent of a first-only split.  The
append therefore goes through `writeFile('')`, which resolves to
`currentDirectory + '/'` and silently creates a file at the key
`/home/user/`, while `/tmp/x.txt` still reads `hi\n`. -/
theorem claim_C3 :
    ((stepState (runEcho 0 "echo \"hi\" > /tmp/x.txt" defaultVFS)).map
        (fun s => catRender "/tmp/x.txt" s) = some "hi\n") ∧
    (((stepState (runEcho 0 "echo \"hi\" > /tmp/x.txt" defaultVFS)).bind
        (fun s => stepState (runEcho 0 "echo \"bye\" >> /tmp/x.txt" s))).map
        (fun s => (catRender "/tmp/x.txt" s, tlookup s.fs "/home/user/"))
      = some ("hi\n", some (Entry.file "bye\n" 0))) := by
  constructor
  · decide
  · decide

/-- Claim C4.  `move(a, b)` is exactly the short-circuit composition
`copy(a, b)` then `remove(a, recursive=false)`; and whenever `copy`
fails, `move` returns that same error together with `copy`'s final state,
and the entry at `a` (existence, kind and content, i.e. its `tlookup`
image) is unchanged. -/
theorem claim_C4 :
    ∀ (now fuel : Nat) (a b : String) (st : VFS),
      mv now fuel a b st = cpThenRm now fuel a b st ∧
      (∀ r st', cp now a b st = .ok r st' → r.isErr = true →
        mv now fuel a b st = .ok r st' ∧
        tlookup st'.fs (resolvePath st.currentDir a) =
          tlookup st.fs (resolvePath st.currentDir a)) := by
  intro now fuel a b st
  constructor
  · rfl
  · intro r st' hcp he
    constructor
    · simp only [mv, hcp, if_pos he]
    · exact cp_err_pres hcp he

/-- Claim C4, witness: `cp('/nope', '/tmp/y')` fails with `NoSuchEntry`
on the default layout, and `mv` returns the same error with the state
unchanged. -/
theorem claim_C4_witness :
    Res.isErr (.error "cp: cannot stat: No such file or directory") = true ∧
    mv 0 5 "/nope" "/tmp/y" defaultVFS =
      .ok (.error "cp: cannot stat: No such file or directory") defaultVFS := by
  refine ⟨by decide, ?_⟩
  exact ((claim_C4 0 5 "/nope" "/tmp/y" defaultVFS).2 _ defaultVFS
    (by decide) (by decide)).1

/-- Claim C5.  A path expression beginning with `/` is returned by the
resolver completely unchanged for every current directory — no `.` or
`..` collapsing, no trailing-slash stripping — as the example
`/a/../b` shows; and resolution is a pure total function of the two
strings (it takes no Tree and cannot fail, as its type shows). -/
theorem claim_C5 :
    ∀ (p cwd : String),
      (isAbsolute p = true → resolvePath cwd p = p) ∧
      resolvePath cwd "/a/../b" = "/a/../b" := by
  intro p cwd
  exact ⟨fun h => resolve_abs h, resolve_abs (by decide)⟩

/-- Claim C5, witness: the absolute expression `/a/../b` resolves to
itself. -/
theorem claim_C5_witness :
    isAbsolute "/a/../b" = true ∧ resolvePath "/home/user" "/a/../b" = "/a/../b" :=
  ⟨by decide, (claim_C5 "/a/../b" "/home/user").1 (by decide)⟩

/-- Claim C6.  `resolve('..', cwd)` splits the current directory on `/`,
keeps the nonempty segments, drops the last, and rejoins them behind a
leading `/`, giving `/` when no segments remain; consequently `cd ..`
from `/home/user` yields `/home`, a second `cd ..` yields `/`, and a
third leaves it at `/`. -/
theorem claim_C6 :
    (∀ cwd : String, resolvePath cwd ".." =
      ⟨'/' :: joinSlash (((chSplit '/' cwd.data).filter (fun g => g ≠ [])).dropLast)⟩) ∧
    (∀ cwd : String,
      ((chSplit '/' cwd.data).filter (fun g => g ≠ [])).dropLast = [] →
      resolvePath cwd ".." = "/") ∧
    (cd ".." defaultVFS).2.currentDir = "/home" ∧
    (cd ".." (cd ".." defaultVFS).2).2.currentDir = "/" ∧
    (cd ".." (cd ".." (cd ".." defaultVFS).2).2).2.currentDir = "/" := by
  refine ⟨resolve_dotdot, ?_, by decide, by decide, by decide⟩
  intro cwd h
  rw [resolve_dotdot, h]
  rfl

/-- Claim C6, witness: from the root, no segments remain and `..`
resolves to `/`. -/
theorem claim_C6_witness :
    (((chSplit '/' ("/" : String).data).filter (fun g => g ≠ [])).dropLast = []) ∧
    resolvePath "/" ".." = "/" :=
  ⟨by decide, claim_C6.2.1 "/" (by decide)⟩

/-- Claim C7.  `touch` is idempotent: when the resolved path already
exists it returns success and leaves the state completely unchanged (so
a File's content is not reset); and after `touch`, `writeFile(content)`,
a second `touch` is again a no-op success and the content still reads
back as what was written. -/
theorem claim_C7 :
    (∀ (now : Nat) (p : String) (st : VFS),
      exists_ st.fs (resolvePath st.currentDir p) = true →
      touch now p st = .ok .success st) ∧
    (∀ (now1 now2 now3 : Nat) (p c : String) (st st1 st2 : VFS),
      touch now1 p st = .ok .success st1 →
      writeFile now2 p c false st1 = .ok .success st2 →
      touch now3 p st2 = .ok .success st2 ∧ readFile p st2 = .content c) := by
  constructor
  · intro now p st h
    exact touch_exists_noop h
  · intro now1 now2 now3 p c st st1 st2 ht hw
    obtain ⟨hcd, cr, hl⟩ := writeFile_success_lookup hw
    have hl2 : tlookup st2.fs (resolvePath st2.currentDir p) = some (Entry.file c cr) := by
      rw [hcd]; exact hl
    exact ⟨touch_exists_noop (exists_of_lookup hl2), readFile_of_lookup hl2⟩

/-- Claim C7, witness: touch `a.txt`, write `hello`, touch again on the
default layout; the second touch is a no-op and the content is kept. -/
theorem claim_C7_witness :
    (touch 0 "a.txt" defaultVFS = .ok .success ⟨"/home/user",
      [ ("/", Entry.dir ["home", "etc", "var", "tmp"]),
        ("/home", Entry.dir ["user"]),
        ("/home/user", Entry.dir ["Desktop", "Documents", "Downloads", "a.txt"]),
        ("/home/user/Desktop", Entry.dir []),
        ("/home/user/Documents", Entry.dir []),
        ("/home/user/Downloads", Entry.dir []),
        ("/etc", Entry.dir []),
        ("/var", Entry.dir []),
        ("/tmp", Entry.dir []),
        ("/home/user/a.txt", Entry.file "" 0) ]⟩) ∧
    (touch 7 "a.txt" ⟨"/home/user",
      [ ("/", Entry.dir ["home", "etc", "var", "tmp"]),
        ("/home", Entry.dir ["user"]),
        ("/home/user", Entry.dir ["Desktop", "Documents", "Downloads", "a.txt"]),
        ("/home/user/Desktop", Entry.dir []),
        ("/home/user/Documents", Entry.dir []),
        ("/home/user/Downloads", Entry.dir []),
        ("/etc", Entry.dir []),
        ("/var", Entry.dir []),
        ("/tmp", Entry.dir []),
        ("/home/user/a.txt", Entry.file "hello" 0) ]⟩ = .ok .success ⟨"/home/user",
      [ ("/", Entry.dir ["home", "etc", "var", "tmp"]),
        ("/home", Entry.dir ["user"]),
        ("/home/user", Entry.dir ["Desktop", "Documents", "Downloads", "a.txt"]),
        ("/home/user/Desktop", Entry.dir []),
        ("/home/user/Documents", Entry.dir []),
        ("/home/user/Downloads", Entry.dir []),
        ("/etc", Entry.dir []),
        ("/var", Entry.dir []),
        ("/tmp", Entry.dir []),
        ("/home/user/a.txt", Entry.file "hello" 0) ]⟩ ∧
      readFile "a.txt" ⟨"/home/user",
      [ ("/", Entry.dir ["home", "etc", "var", "tmp"]),
        ("/home", Entry.dir ["user"]),
        ("/home/user", Entry.dir ["Desktop", "Documents", "Downloads", "a.txt"]),
        ("/home/user/Desktop", Entry.dir []),
        ("/home/user/Documents", Entry.dir []),
        ("/home/user/Downloads", Entry.dir []),
        ("/etc", Entry.dir []),
        ("/var", Entry.dir []),
        ("/tmp", Entry.dir []),
        ("/home/user/a.txt", Entry.file "hello" 0) ]⟩ = .content "hello") :=
  ⟨by decide,
    claim_C7.2 0 0 7 "a.txt" "hello" defaultVFS
      ⟨"/home/user",
        [ ("/", Entry.dir ["home", "etc", "var", "tmp"]),
          ("/home", Entry.dir ["user"]),
          ("/home/user", Entry.dir ["Desktop", "Documents", "Downloads", "a.txt"]),
          ("/home/user/Desktop", Entry.dir []),
          ("/home/user/Documents", Entry.dir []),
          ("/home/user/Downloads", Entry.dir []),
          ("/etc", Entry.dir []),
          ("/var", Entry.dir []),
          ("/tmp", Entry.dir []),
          ("/home/user/a.txt", Entry.file "" 0) ]⟩
      ⟨"/home/user",
        [ ("/", Entry.dir ["home", "etc", "var", "tmp"]),
          ("/home", Entry.dir ["user"]),
          ("/home/user", Entry.dir ["Desktop", "Documents", "Downloads", "a.txt"]),
          ("/home/user/Desktop", Entry.dir []),
          ("/home/user/Documents", Entry.dir []),
          ("/home/user/Downloads", Entry.dir []),
          ("/etc", Entry.dir []),
          ("/var", Entry.dir []),
          ("/tmp", Entry.dir []),
          ("/home/user/a.txt", Entry.file "hello" 0) ]⟩
      (by decide) (by decide)⟩

/-- Claim C8.  Persistence round-trip, proved for every Tree (hence in
particular for every reachable one): serializing the snapshot and
reloading it returns exactly the original mapping — same keys in the same
stored order, each Directory's children in the same order, each File's
content unchanged.  The serializer itself is modelled from the spec,
since `JSON.stringify`/`JSON.parse` and `localStorage` are platform
primitives outside the repository's source. -/
theorem claim_C8 : ∀ t : Tree, decodeSnapshot (encodeSnapshot t) = some t :=
  decodeSnapshot_encodeSnapshot

/-- Claim C9, counterexample.  The claim says the fallback layout
contains exactly the root, `/home`, `/home/user` and three empty
subdirectories of `/home/user`; but the constructor's default object also
contains `/etc` (and `/var`, `/tmp`), which is none of those. -/
theorem claim_C9_counterexample :
    tlookup (initFS none) "/etc" = some (Entry.dir []) ∧
    parentOf "/etc" ≠ "/home/user" ∧
    ("/etc" ∉ (["/", "/home", "/home/user"] : List String)) := by
  refine ⟨by decide, by decide, by decide⟩

/-- Claim C9, amended.  When loading fails (`loadFS` returns null,
modelled as `none`), startup falls back silently — the constructor is a
total function with no error channel — to the fixed nine-entry default
layout: the root (children `home`, `etc`, `var`, `tmp`), `/home`,
`/home/user`, the three empty subdirectories `Desktop`, `Documents`,
`Downloads` of `/home/user`, and the empty directories `/etc`, `/var`
and `/tmp`; a successfully loaded snapshot is used as is. -/
theorem claim_C9_amended :
    initFS none =
      [ ("/", Entry.dir ["home", "etc", "var", "tmp"]),
        ("/home", Entry.dir ["user"]),
        ("/home/user", Entry.dir ["Desktop", "Documents", "Downloads"]),
        ("/home/user/Desktop", Entry.dir []),
        ("/home/user/Documents", Entry.dir []),
        ("/home/user/Downloads", Entry.dir []),
        ("/etc", Entry.dir []),
        ("/var", Entry.dir []),
        ("/tmp", Entry.dir []) ] ∧
    (∀ t, initFS (some t) = t) :=
  ⟨rfl, fun _ => rfl⟩

/-- Claim C10.  Self-move destroys the file: when `a` resolves to an
absolute canonical path holding a File whose parent key is a Directory,
`move(a, a)` returns success, yet afterwards the entry at that path is
gone and its name has been removed (first occurrence) from the parent's
children — the copy step overwrites the file with its own content and
the remove step then deletes it. -/
theorem claim_C10 (now fuel : Nat) (a : String) (st : VFS) (ch : List String)
    (habs : isAbsolute (resolvePath st.currentDir a) = true)
    (hfile : isFile st.fs (resolvePath st.currentDir a) = true)
    (hpar : tlookup st.fs (parentOf (resolvePath st.currentDir a)) = some (Entry.dir ch)) :
    ∃ st', mv now (fuel + 1) a a st = .ok .success st' ∧
      tlookup st'.fs (resolvePath st.currentDir a) = none ∧
      tlookup st'.fs (parentOf (resolvePath st.currentDir a)) =
        some (Entry.dir (ch.erase (baseOf (resolvePath st.currentDir a)))) := by
  obtain ⟨c, cr, hl⟩ := isFile_lookup hfile
  have hres : resolvePath st.currentDir (resolvePath st.currentDir a) =
      resolvePath st.currentDir a := resolve_abs habs
  have hpne : parentOf (resolvePath st.currentDir a) ≠ resolvePath st.currentDir a := by
    intro hq
    rw [hq, hl] at hpar
    cases hpar
  have hex : exists_ st.fs (resolvePath st.currentDir a) = true := exists_of_lookup hl
  have hdirF : isDir st.fs (resolvePath st.currentDir a) = false := by
    unfold isDir; rw [hl]
  have hread : readFile (resolvePath st.currentDir a) st = .content c :=
    readFile_of_lookup (by rw [hres]; exact hl)
  have hwf : writeFile now (resolvePath st.currentDir a) c false st =
      .ok .success ⟨st.currentDir,
        tset st.fs (resolvePath st.currentDir a) (Entry.file c cr)⟩ := by
    simp [writeFile, Res.isErr, hres, hex, hfile, hl]
  have hcp : cp now a a st = .ok .success ⟨st.currentDir,
      tset st.fs (resolvePath st.currentDir a) (Entry.file c cr)⟩ := by
    simp [cp, Res.isErr, hex, hdirF, hread, hwf]
  have hl2 : tlookup (tset st.fs (resolvePath st.currentDir a) (Entry.file c cr))
      (resolvePath st.currentDir a) = some (Entry.file c cr) := tlookup_tset_self ..
  have hex2 : exists_ (tset st.fs (resolvePath st.currentDir a) (Entry.file c cr))
      (resolvePath st.currentDir a) = true := exists_of_lookup hl2
  have hdir2 : isDir (tset st.fs (resolvePath st.currentDir a) (Entry.file c cr))
      (resolvePath st.currentDir a) = false := by
    unfold isDir; rw [hl2]
  have hpar2 : tlookup (tdel (tset st.fs (resolvePath st.currentDir a)
      (Entry.file c cr)) (resolvePath st.currentDir a))
      (parentOf (resolvePath st.currentDir a)) = some (Entry.dir ch) := by
    rw [tlookup_tdel_ne _ _ _ hpne, tlookup_tset_ne _ _ _ _ hpne]
    exact hpar
  refine ⟨⟨st.currentDir,
    tset (tdel (tset st.fs (resolvePath st.currentDir a) (Entry.file c cr))
        (resolvePath st.currentDir a))
      (parentOf (resolvePath st.currentDir a))
      (Entry.dir (ch.erase (baseOf (resolvePath st.currentDir a))))⟩, ?_, ?_, ?_⟩
  · simp only [mv, hcp]
    show rmFuel (fuel + 1) a false _ = _
    simp [rmFuel, Res.isErr, hex2, hdir2, hpar2]
  · rw [tlookup_tset_ne _ _ _ _ (fun hq => hpne hq.symm)]
    exact tlookup_tdel_self ..
  · exact tlookup_tset_self ..

/-- Claim C10, witness: self-move of the file `/f` in a two-entry tree
destroys it and unlinks `f` from the root's children. -/
theorem claim_C10_witness :
    isFile (⟨"/", [("/", Entry.dir ["f"]), ("/f", Entry.file "hi" 0)]⟩ : VFS).fs
      (resolvePath "/" "/f") = true ∧
    (∃ st', mv 0 (4 + 1) "/f" "/f"
        ⟨"/", [("/", Entry.dir ["f"]), ("/f", Entry.file "hi" 0)]⟩ = .ok .success st' ∧
      tlookup st'.fs (resolvePath "/" "/f") = none ∧
      tlookup st'.fs (parentOf (resolvePath "/" "/f")) =
        some (Entry.dir ((["f"] : List String).erase (baseOf (resolvePath "/" "/f"))))) :=
  ⟨by decide,
    claim_C10 0 4 "/f" ⟨"/", [("/", Entry.dir ["f"]), ("/f", Entry.file "hi" 0)]⟩
      ["f"] (by decide) (by decide) (by decide)⟩

end YesVFS
